import Mathlib

/-!
Shallow embedding of `server.py` (the Quality Report Aggregation Engine and
the Boundary-Value Test Case Generator) and proofs about it.

Conventions of the embedding:
* A parsed XML attribute is an `Option String` (`Element.get` returns the
  attribute string or `None`).
* Python `int()` applied to a string is `pyInt`; a `ValueError` is `none`.
* Python exceptions that escape a function are modelled with `Except Unit`.
* Machine-unbounded Python integers are `Int`; coverage percentages are `ℚ`.
-/

namespace QualityServer

/-- Strip whitespace from both ends of a character list (Python
`str.strip()` on the ASCII core). -/
def trimChars (cs : List Char) : List Char :=
  ((cs.dropWhile Char.isWhitespace).reverse.dropWhile Char.isWhitespace).reverse

/-- Numeric value of a run of decimal digit characters. -/
def digitsToNat (cs : List Char) : Nat :=
  cs.foldl (fun a c => a * 10 + (c.toNat - 48)) 0

/-- `some` of the value iff `cs` is one or more decimal digits. -/
def decDigits (cs : List Char) : Option Nat :=
  if !cs.isEmpty && cs.all Char.isDigit then some (digitsToNat cs) else none

/-- Python `int(s)` on a string, ASCII core as exercised by `server.py`:
surrounding whitespace is stripped, then an optional sign followed by one or
more decimal digits; any other shape raises `ValueError`, modelled as
`none`. -/
def pyInt (s : String) : Option Int :=
  match trimChars s.data with
  | '-' :: rest => (decDigits rest).map (fun n => -(n : Int))
  | '+' :: rest => (decDigits rest).map (fun n => (n : Int))
  | t => (decDigits t).map (fun n => (n : Int))

/-- `int(elem.get(attr, 0))`: a missing attribute defaults to the integer 0;
a present attribute goes through `int(...)`, whose `ValueError` escapes. -/
def attrInt (a : Option String) : Except Unit Int :=
  match a with
  | none => Except.ok 0
  | some s =>
    match pyInt s with
    | some v => Except.ok v
    | none => Except.error ()

/-- `True` (as a `Bool`) iff `attrInt` does not raise on this attribute. -/
def attrParses (a : Option String) : Bool :=
  match a with
  | none => true
  | some s => (pyInt s).isSome

/-- The suite-level attributes of one `<testsuite>` root element that
`get_quality_dashboard` reads. -/
structure SuiteAttrs where
  tests : Option String
  failures : Option String
  errors : Option String
  skipped : Option String
deriving DecidableEq

/-- One `TEST-*.xml` file found by the Surefire glob: either `ET.parse`
raises `ParseError` (malformed) or it yields a `<testsuite>` root. -/
inductive SurefireFile where
  | malformed
  | parsed (attrs : SuiteAttrs)
deriving DecidableEq

/-- The `test_run_summary` dict assembled by `get_quality_dashboard`. -/
structure TestRunSummary where
  total_tests : Int
  passed : Int
  failures : Int
  errors : Int
  skipped : Int
deriving DecidableEq

/-- `True` iff every present suite attribute of the file parses as an
integer (a malformed file is skipped before attributes are read). -/
def fileAttrsParse (f : SurefireFile) : Bool :=
  match f with
  | SurefireFile.malformed => true
  | SurefireFile.parsed a =>
      attrParses a.tests && attrParses a.failures && attrParses a.errors && attrParses a.skipped

/-- The per-file accumulation step of the Surefire loop in
`get_quality_dashboard` (server.py lines 126-135): a malformed file is
skipped (`except ET.ParseError: pass`); otherwise the four suite attributes
are added to the running totals. A `ValueError` from `int(...)` is not
caught and aborts the whole call. -/
def surefireStep (acc : Int × Int × Int × Int) (f : SurefireFile) :
    Except Unit (Int × Int × Int × Int) :=
  match f with
  | SurefireFile.malformed => Except.ok acc
  | SurefireFile.parsed a => do
    let t ← attrInt a.tests
    let fl ← attrInt a.failures
    let er ← attrInt a.errors
    let sk ← attrInt a.skipped
    Except.ok (acc.1 + t, acc.2.1 + fl, acc.2.2.1 + er, acc.2.2.2 + sk)

/-- The Surefire aggregation loop of `get_quality_dashboard` over all
report files, starting from zero totals. -/
def sumSurefire (files : List SurefireFile) : Except Unit (Int × Int × Int × Int) :=
  files.foldlM surefireStep (0, 0, 0, 0)

/-- The `test_run_summary` part of `get_quality_dashboard`:
`total_passed = total_tests - (total_failures + total_errors + total_skipped)`
(server.py line 137), with no clamping. -/
def surefireSummary (files : List SurefireFile) : Except Unit TestRunSummary := do
  let r ← sumSurefire files
  Except.ok
    { total_tests := r.1
      passed := r.1 - (r.2.1 + r.2.2.1 + r.2.2.2)
      failures := r.2.1
      errors := r.2.2.1
      skipped := r.2.2.2 }

theorem ok_bind {ε α β : Type} (a : α) (f : α → Except ε β) :
    (Except.ok a >>= f) = f a := rfl

theorem error_bind {ε α β : Type} (e : ε) (f : α → Except ε β) :
    (Except.error e >>= f : Except ε β) = Except.error e := rfl

theorem attrParses_attrInt {a : Option String} (h : attrParses a = true) :
    ∃ v, attrInt a = Except.ok v := by
  cases a with
  | none => exact ⟨0, rfl⟩
  | some s =>
    simp only [attrParses, Option.isSome_iff_exists] at h
    obtain ⟨v, hv⟩ := h
    exact ⟨v, by simp [attrInt, hv]⟩

theorem attrFails_attrInt {a : Option String} (h : attrParses a = false) :
    attrInt a = Except.error () := by
  cases a with
  | none => simp [attrParses] at h
  | some s =>
    cases hp : pyInt s with
    | none => simp [attrInt, hp]
    | some v => simp [attrParses, hp] at h

theorem surefireStep_ok {f : SurefireFile} (h : fileAttrsParse f = true)
    (acc : Int × Int × Int × Int) : ∃ r, surefireStep acc f = Except.ok r := by
  cases f with
  | malformed => exact ⟨acc, rfl⟩
  | parsed a =>
    simp only [fileAttrsParse, Bool.and_eq_true] at h
    obtain ⟨⟨⟨h1, h2⟩, h3⟩, h4⟩ := h
    obtain ⟨v1, hv1⟩ := attrParses_attrInt h1
    obtain ⟨v2, hv2⟩ := attrParses_attrInt h2
    obtain ⟨v3, hv3⟩ := attrParses_attrInt h3
    obtain ⟨v4, hv4⟩ := attrParses_attrInt h4
    refine ⟨(acc.1 + v1, acc.2.1 + v2, acc.2.2.1 + v3, acc.2.2.2 + v4), ?_⟩
    simp only [surefireStep, hv1, hv2, hv3, hv4, ok_bind]

theorem surefireStep_error {f : SurefireFile} (h : fileAttrsParse f = false)
    (acc : Int × Int × Int × Int) : surefireStep acc f = Except.error () := by
  cases f with
  | malformed => simp [fileAttrsParse] at h
  | parsed a =>
    simp only [surefireStep]
    cases ht : attrParses a.tests with
    | false => rw [attrFails_attrInt ht, error_bind]
    | true =>
      obtain ⟨v1, hv1⟩ := attrParses_attrInt ht
      rw [hv1, ok_bind]
      cases hf2 : attrParses a.failures with
      | false => rw [attrFails_attrInt hf2, error_bind]
      | true =>
        obtain ⟨v2, hv2⟩ := attrParses_attrInt hf2
        rw [hv2, ok_bind]
        cases he : attrParses a.errors with
        | false => rw [attrFails_attrInt he, error_bind]
        | true =>
          obtain ⟨v3, hv3⟩ := attrParses_attrInt he
          rw [hv3, ok_bind]
          cases hsk : attrParses a.skipped with
          | false => rw [attrFails_attrInt hsk, error_bind]
          | true => simp [fileAttrsParse, ht, hf2, he, hsk] at h

theorem foldlM_surefire_ok (files : List SurefireFile)
    (h : ∀ f ∈ files, fileAttrsParse f = true) (acc : Int × Int × Int × Int) :
    ∃ r, files.foldlM surefireStep acc = Except.ok r := by
  induction files generalizing acc with
  | nil => exact ⟨acc, rfl⟩
  | cons f fs ih =>
    obtain ⟨r1, hr1⟩ := surefireStep_ok (h f (List.mem_cons_self f fs)) acc
    obtain ⟨r2, hr2⟩ := ih (fun g hg => h g (List.mem_cons_of_mem f hg)) r1
    refine ⟨r2, ?_⟩
    rw [List.foldlM_cons, hr1]
    exact hr2

theorem foldlM_surefire_error (files : List SurefireFile)
    (h : ∃ f ∈ files, fileAttrsParse f = false) (acc : Int × Int × Int × Int) :
    files.foldlM surefireStep acc = Except.error () := by
  induction files generalizing acc with
  | nil => simp at h
  | cons f fs ih =>
    rw [List.foldlM_cons]
    cases hf : fileAttrsParse f with
    | false => rw [surefireStep_error hf]; rfl
    | true =>
      obtain ⟨r1, hr1⟩ := surefireStep_ok hf acc
      rw [hr1]
      obtain ⟨g, hg, hgbad⟩ := h
      rcases List.mem_cons.mp hg with rfl | hgtail
      · rw [hf] at hgbad; cases hgbad
      · exact ih ⟨g, hgtail, hgbad⟩ r1

/-- C1 (counterexample): the claim says `passed` is clamped so that no
aggregated count is ever negative; but on a suite whose failure attribute
exceeds its tests attribute, `get_quality_dashboard` reports
`passed = -1`, because line 137 of server.py subtracts with no clamping. -/
theorem c1_counterexample :
    surefireSummary [SurefireFile.parsed ⟨some "0", some "1", none, none⟩] =
      Except.ok { total_tests := 0, passed := -1, failures := 1, errors := 0, skipped := 0 } ∧
    ¬ (0 : Int) ≤ -1 := by
  exact ⟨rfl, by decide⟩

/-- C1 (amended): every summary returned by the Surefire half of
`get_quality_dashboard` satisfies
`passed = total - (failed + errored + skipped)`, with no clamping: `passed`
can be negative when the suite-level failure/error/skip attributes sum to
more than the tests attribute. -/
theorem c1_passed_formula (files : List SurefireFile) (s : TestRunSummary)
    (h : surefireSummary files = Except.ok s) :
    s.passed = s.total_tests - (s.failures + s.errors + s.skipped) := by
  unfold surefireSummary at h
  cases hs : sumSurefire files with
  | error e => rw [hs, error_bind] at h; cases h
  | ok r =>
    rw [hs, ok_bind] at h
    injection h with h
    subst h
    show r.1 - (r.2.1 + r.2.2.1 + r.2.2.2) = r.1 - (r.2.1 + r.2.2.1 + r.2.2.2)
    rfl

theorem c1_passed_formula_witness :
    surefireSummary [SurefireFile.parsed ⟨some "3", some "1", none, none⟩] =
        Except.ok ⟨3, 2, 1, 0, 0⟩ ∧
      (⟨3, 2, 1, 0, 0⟩ : TestRunSummary).passed =
        (⟨3, 2, 1, 0, 0⟩ : TestRunSummary).total_tests -
          ((⟨3, 2, 1, 0, 0⟩ : TestRunSummary).failures +
            (⟨3, 2, 1, 0, 0⟩ : TestRunSummary).errors +
            (⟨3, 2, 1, 0, 0⟩ : TestRunSummary).skipped) :=
  ⟨rfl, c1_passed_formula [SurefireFile.parsed ⟨some "3", some "1", none, none⟩]
    ⟨3, 2, 1, 0, 0⟩ rfl⟩

/-- C2 (counterexample): a report whose `tests` attribute is present but not
a number makes `get_quality_dashboard` raise `ValueError` (only
`ET.ParseError` is caught on lines 134-135), i.e. the call terminates
abruptly instead of returning a status/error field. -/
theorem c2_counterexample :
    surefireSummary [SurefireFile.parsed ⟨some "abc", none, none, none⟩] =
      Except.error () := rfl

/-- C2 (amended): a missing suite attribute defaults to 0 and malformed
files are skipped silently, so a batch whose present attributes all parse
always yields a summary; but a present non-numeric attribute on any parsed
file raises an uncaught `ValueError`, terminating `get_quality_dashboard`
abruptly rather than returning error data. -/
theorem c2_error_policy :
    attrInt none = Except.ok 0 ∧
    (∀ files : List SurefireFile, (∀ f ∈ files, fileAttrsParse f = true) →
      ∃ s, surefireSummary files = Except.ok s) ∧
    ∀ files : List SurefireFile, (∃ f ∈ files, fileAttrsParse f = false) →
      surefireSummary files = Except.error () := by
  refine ⟨rfl, ?_, ?_⟩
  · intro files h
    obtain ⟨r, hr⟩ := foldlM_surefire_ok files h (0, 0, 0, 0)
    refine ⟨{ total_tests := r.1, passed := r.1 - (r.2.1 + r.2.2.1 + r.2.2.2),
              failures := r.2.1, errors := r.2.2.1, skipped := r.2.2.2 }, ?_⟩
    unfold surefireSummary sumSurefire
    rw [hr, ok_bind]
  · intro files h
    unfold surefireSummary sumSurefire
    rw [foldlM_surefire_error files h, error_bind]

theorem c2_error_policy_witness :
    (∃ f ∈ [SurefireFile.parsed ⟨some "abc", none, none, none⟩],
        fileAttrsParse f = false) ∧
    surefireSummary [SurefireFile.parsed ⟨some "abc", none, none, none⟩] =
      Except.error () := by
  have hex : ∃ f ∈ [SurefireFile.parsed ⟨some "abc", none, none, none⟩],
      fileAttrsParse f = false :=
    ⟨SurefireFile.parsed ⟨some "abc", none, none, none⟩, List.mem_singleton.mpr rfl, rfl⟩
  exact ⟨hex, c2_error_policy.2.2 [SurefireFile.parsed ⟨some "abc", none, none, none⟩] hex⟩

/-- C3 (confirmed): every `test_run_summary` returned by
`get_quality_dashboard` satisfies
`passed + failures + errors + skipped = total_tests`. -/
theorem c3_sum_identity (files : List SurefireFile) (s : TestRunSummary)
    (h : surefireSummary files = Except.ok s) :
    s.passed + s.failures + s.errors + s.skipped = s.total_tests := by
  unfold surefireSummary at h
  cases hs : sumSurefire files with
  | error e => rw [hs, error_bind] at h; cases h
  | ok r =>
    rw [hs, ok_bind] at h
    injection h with h
    subst h
    show r.1 - (r.2.1 + r.2.2.1 + r.2.2.2) + r.2.1 + r.2.2.1 + r.2.2.2 = r.1
    ring

theorem c3_sum_identity_witness :
    surefireSummary [SurefireFile.parsed ⟨some "5", some "1", some "1", some "1"⟩] =
        Except.ok ⟨5, 2, 1, 1, 1⟩ ∧
      (⟨5, 2, 1, 1, 1⟩ : TestRunSummary).passed + (⟨5, 2, 1, 1, 1⟩ : TestRunSummary).failures +
        (⟨5, 2, 1, 1, 1⟩ : TestRunSummary).errors + (⟨5, 2, 1, 1, 1⟩ : TestRunSummary).skipped =
        (⟨5, 2, 1, 1, 1⟩ : TestRunSummary).total_tests :=
  ⟨rfl, c3_sum_identity [SurefireFile.parsed ⟨some "5", some "1", some "1", some "1"⟩]
    ⟨5, 2, 1, 1, 1⟩ rfl⟩

/-- Python `round(x, 2)` on the coverage percentages: round to the nearest
multiple of 1/100.  (Python rounds ties to even, Mathlib's `round` rounds
ties up; the two agree away from ties and no property proved here depends
on tie-breaking.) -/
def round2 (q : ℚ) : ℚ := ((round (q * 100) : ℤ) : ℚ) / 100

/-- One top-level `<counter>` element of the JaCoCo report as read by
`get_quality_dashboard` (server.py lines 150-153). -/
structure Counter where
  type : String
  missed : Option String
  covered : Option String
deriving DecidableEq

/-- The `code_coverage_summary` dict of `get_quality_dashboard`. -/
structure CoverageSummary where
  line_coverage : ℚ
  branch_coverage : ℚ
  method_coverage : ℚ
deriving DecidableEq

/-- Lines 154-156 of server.py for one counter:
`percentage = (covered / total) * 100 if total > 0 else 100.0`, stored
rounded to two decimals. -/
def counterPercentage (missed covered : Int) : ℚ :=
  round2 (if 0 < missed + covered
          then ((covered : ℚ) / ((missed + covered : Int) : ℚ)) * 100
          else 100)

/-- The per-counter step of the JaCoCo loop (lines 150-163): read the two
count attributes (`int(counter.get(..., 0))`, whose `ValueError` escapes as
in the Surefire half), compute the rounded percentage, and store it under
the matching counter type. -/
def counterStep (acc : CoverageSummary) (c : Counter) : Except Unit CoverageSummary := do
  let m ← attrInt c.missed
  let cv ← attrInt c.covered
  let p := counterPercentage m cv
  Except.ok (if c.type = "LINE" then { acc with line_coverage := p }
             else if c.type = "BRANCH" then { acc with branch_coverage := p }
             else if c.type = "METHOD" then { acc with method_coverage := p }
             else acc)

/-- The JaCoCo half of `get_quality_dashboard` (lines 139-163): fold the
top-level counters over the zero-initialised summary.  A missing report or
a `ParseError` leaves the zeros, modelled by passing no counters. -/
def coverageSummary (counters : List Counter) : Except Unit CoverageSummary :=
  counters.foldlM counterStep
    { line_coverage := 0, branch_coverage := 0, method_coverage := 0 }

/-- `True` iff the attribute is present-and-numeric or missing, with a
nonnegative resulting count (every counter of a real JaCoCo report). -/
def attrNonneg (a : Option String) : Bool :=
  match attrInt a with
  | Except.ok v => decide (0 ≤ v)
  | Except.error _ => false

/-- Both counts of the counter are available and nonnegative. -/
def counterNonneg (c : Counter) : Bool := attrNonneg c.missed && attrNonneg c.covered

/-- All three percentages of a coverage summary lie in [0, 100]. -/
def summaryBounded (s : CoverageSummary) : Prop :=
  0 ≤ s.line_coverage ∧ s.line_coverage ≤ 100 ∧
  0 ≤ s.branch_coverage ∧ s.branch_coverage ≤ 100 ∧
  0 ≤ s.method_coverage ∧ s.method_coverage ≤ 100

theorem round2_nonneg {q : ℚ} (h : 0 ≤ q) : 0 ≤ round2 q := by
  unfold round2
  have h1 : (0 : ℤ) ≤ round (q * 100) := by
    rw [round_eq]
    exact Int.le_floor.mpr (by push_cast; linarith)
  have h2 : (0 : ℚ) ≤ ((round (q * 100) : ℤ) : ℚ) := by exact_mod_cast h1
  linarith

theorem round2_le_100 {q : ℚ} (h : q ≤ 100) : round2 q ≤ 100 := by
  unfold round2
  have h1 : round (q * 100) ≤ (10000 : ℤ) := by
    rw [round_eq]
    have : (⌊q * 100 + 1 / 2⌋ : ℤ) < 10001 := by
      apply Int.floor_lt.mpr
      push_cast
      linarith
    omega
  have h2 : ((round (q * 100) : ℤ) : ℚ) ≤ 10000 := by exact_mod_cast h1
  linarith

theorem round2_100 : round2 100 = 100 := by
  have h : ((100 : ℚ) * 100) = ((10000 : ℤ) : ℚ) := by norm_num
  rw [round2, h, round_intCast]
  norm_num

theorem counterPercentage_bounds {m cv : Int} (hm : 0 ≤ m) (hc : 0 ≤ cv) :
    0 ≤ counterPercentage m cv ∧ counterPercentage m cv ≤ 100 := by
  unfold counterPercentage
  by_cases ht : 0 < m + cv
  · rw [if_pos ht]
    have htq : (0 : ℚ) < ((m + cv : Int) : ℚ) := by exact_mod_cast ht
    have hcq : (0 : ℚ) ≤ (cv : ℚ) := by exact_mod_cast hc
    have hmq : (0 : ℚ) ≤ (m : ℚ) := by exact_mod_cast hm
    have hle : (cv : ℚ) ≤ ((m + cv : Int) : ℚ) := by push_cast; linarith
    have h0 : 0 ≤ ((cv : ℚ) / ((m + cv : Int) : ℚ)) * 100 := by positivity
    have h1 : ((cv : ℚ) / ((m + cv : Int) : ℚ)) ≤ 1 := (div_le_one htq).mpr hle
    have h2 : ((cv : ℚ) / ((m + cv : Int) : ℚ)) * 100 ≤ 100 := by linarith
    exact ⟨round2_nonneg h0, round2_le_100 h2⟩
  · rw [if_neg ht]
    exact ⟨round2_nonneg (by norm_num), round2_le_100 (by norm_num)⟩

theorem attrNonneg_attrInt {a : Option String} (h : attrNonneg a = true) :
    ∃ v, attrInt a = Except.ok v ∧ 0 ≤ v := by
  unfold attrNonneg at h
  cases ha : attrInt a with
  | ok v => rw [ha] at h; exact ⟨v, rfl, of_decide_eq_true h⟩
  | error e => rw [ha] at h; cases h

theorem counterStep_bounded {acc : CoverageSummary} {c : Counter} {s : CoverageSummary}
    (hc : counterNonneg c = true) (hacc : summaryBounded acc)
    (hs : counterStep acc c = Except.ok s) : summaryBounded s := by
  unfold counterNonneg at hc
  rw [Bool.and_eq_true] at hc
  obtain ⟨m, hm, hm0⟩ := attrNonneg_attrInt hc.1
  obtain ⟨cv, hcv, hcv0⟩ := attrNonneg_attrInt hc.2
  unfold counterStep at hs
  rw [hm, ok_bind, hcv, ok_bind] at hs
  injection hs with hs
  obtain ⟨hb1, hb2⟩ := counterPercentage_bounds hm0 hcv0
  obtain ⟨a1, a2, a3, a4, a5, a6⟩ := hacc
  subst hs
  by_cases h1 : c.type = "LINE"
  · simp only [if_pos h1, summaryBounded]
    exact ⟨hb1, hb2, a3, a4, a5, a6⟩
  · by_cases h2 : c.type = "BRANCH"
    · simp only [if_neg h1, if_pos h2, summaryBounded]
      exact ⟨a1, a2, hb1, hb2, a5, a6⟩
    · by_cases h3 : c.type = "METHOD"
      · simp only [if_neg h1, if_neg h2, if_pos h3, summaryBounded]
        exact ⟨a1, a2, a3, a4, hb1, hb2⟩
      · simp only [if_neg h1, if_neg h2, if_neg h3]
        exact ⟨a1, a2, a3, a4, a5, a6⟩

theorem foldlM_counters_bounded (counters : List Counter)
    (h : ∀ c ∈ counters, counterNonneg c = true) (acc : CoverageSummary)
    (hacc : summaryBounded acc) (s : CoverageSummary)
    (hs : counters.foldlM counterStep acc = Except.ok s) : summaryBounded s := by
  induction counters generalizing acc with
  | nil =>
    simp only [List.foldlM_nil] at hs
    injection hs with hs
    subst hs
    exact hacc
  | cons c cs ih =>
    rw [List.foldlM_cons] at hs
    cases hstep : counterStep acc c with
    | error e => rw [hstep, error_bind] at hs; cases hs
    | ok acc' =>
      rw [hstep, ok_bind] at hs
      exact ih (fun d hd => h d (List.mem_cons_of_mem c hd)) acc'
        (counterStep_bounded (h c (List.mem_cons_self c cs)) hacc hstep) hs

/-- C4 (confirmed): for every top-level counter with nonnegative counts (as
in any JaCoCo report), the stored percentage is
`covered / (missed+covered) * 100` rounded to 2 decimals (`100` when the
total is 0), it lies in [0,100] — and hence so do all three percentages of
the assembled `code_coverage_summary` — and a counter with `missed = 0`
and `covered = 0` yields exactly 100. -/
theorem c4_coverage_percentage :
    (∀ m cv : Int, 0 ≤ m → 0 ≤ cv →
      counterPercentage m cv =
        round2 (if 0 < m + cv then ((cv : ℚ) / ((m + cv : Int) : ℚ)) * 100 else 100) ∧
      0 ≤ counterPercentage m cv ∧ counterPercentage m cv ≤ 100 ∧
      (m = 0 → cv = 0 → counterPercentage m cv = 100)) ∧
    ∀ counters s, coverageSummary counters = Except.ok s →
      (∀ c ∈ counters, counterNonneg c = true) → summaryBounded s := by
  constructor
  · intro m cv hm hc
    refine ⟨rfl, (counterPercentage_bounds hm hc).1, (counterPercentage_bounds hm hc).2, ?_⟩
    intro hm0 hc0
    subst hm0; subst hc0
    unfold counterPercentage
    rw [if_neg (by norm_num)]
    exact round2_100
  · intro counters s hs hn
    exact foldlM_counters_bounded counters hn _
      (by refine ⟨le_refl 0, by norm_num, le_refl 0, by norm_num, le_refl 0, by norm_num⟩) s hs

theorem c4_coverage_percentage_witness :
    (0 : Int) ≤ 1 ∧ (0 : Int) ≤ 3 ∧
    (0 ≤ counterPercentage 1 3 ∧ counterPercentage 1 3 ≤ 100) ∧
    coverageSummary [⟨"LINE", some "0", some "0"⟩] =
      Except.ok { line_coverage := 100, branch_coverage := 0, method_coverage := 0 } ∧
    (∀ c ∈ [(⟨"LINE", some "0", some "0"⟩ : Counter)], counterNonneg c = true) ∧
    summaryBounded { line_coverage := 100, branch_coverage := 0, method_coverage := 0 } := by
  have hcp0 : counterPercentage 0 0 = 100 := by
    unfold counterPercentage
    rw [if_neg (by norm_num)]
    exact round2_100
  have h0 : attrInt (some "0") = Except.ok 0 := rfl
  have hstep : counterStep { line_coverage := 0, branch_coverage := 0, method_coverage := 0 }
      ⟨"LINE", some "0", some "0"⟩ =
      Except.ok { line_coverage := 100, branch_coverage := 0, method_coverage := 0 } := by
    simp only [counterStep, h0, ok_bind]
    simp [hcp0]
  have hsum : coverageSummary [⟨"LINE", some "0", some "0"⟩] =
      Except.ok { line_coverage := 100, branch_coverage := 0, method_coverage := 0 } := by
    unfold coverageSummary
    rw [List.foldlM_cons, hstep, ok_bind, List.foldlM_nil]
    rfl
  have h1 := c4_coverage_percentage.1 1 3 (by decide) (by decide)
  have h2 := c4_coverage_percentage.2 [⟨"LINE", some "0", some "0"⟩]
    { line_coverage := 100, branch_coverage := 0, method_coverage := 0 } hsum (by decide)
  exact ⟨by decide, by decide, ⟨h1.2.1, h1.2.2.1⟩, hsum, by decide, h2⟩

/-- One `<violation>` element of the PMD report (`run_pmd_analysis`,
server.py lines 43-50).  `text` is the element's text content, `None` when
the element is empty. -/
structure PmdViolation where
  beginline : Option String
  rule : Option String
  priority : Option String
  text : Option String
deriving DecidableEq

/-- One `<file>` element of the PMD report. -/
structure PmdFile where
  name : Option String
  violations : List PmdViolation
deriving DecidableEq

/-- One record appended to the `violations` list on lines 44-50. -/
structure Violation where
  file : Option String
  line : Option String
  rule : Option String
  priority : Option String
  description : String
deriving DecidableEq

/-- The record built from one violation element whose text is present. -/
def violationRecord (fname : Option String) (v : PmdViolation) (t : String) : Violation :=
  { file := fname, line := v.beginline, rule := v.rule, priority := v.priority,
    description := ⟨trimChars t.data⟩ }

/-- The violation-collection double loop of `run_pmd_analysis` (lines
41-50).  `violation.text.strip()` raises `AttributeError` when the element
has no text; only the generic outermost `except Exception` catches it. -/
def collectViolations (files : List PmdFile) : Except Unit (List Violation) :=
  files.foldlM
    (fun acc f =>
      f.violations.foldlM
        (fun acc2 v =>
          match v.text with
          | none => Except.error ()
          | some t => Except.ok (acc2 ++ [violationRecord f.name v t]))
        acc)
    []

/-- The parsed `pmd.xml`, or a file `ET.parse` rejects. -/
inductive PmdInput where
  | malformed
  | parsed (files : List PmdFile)
deriving DecidableEq

/-- The dict shapes `run_pmd_analysis` can return once the report file
exists (lines 36-63). -/
inductive PmdResult where
  | parseFailure
  | unexpected
  | noViolations
  | found (total : Nat) (violations_summary : List Violation)
deriving DecidableEq

/-- `run_pmd_analysis` from the parse of `pmd.xml` onwards: a `ParseError`
yields the parse-failure dict; an `AttributeError` from a textless
violation reaches the generic handler; otherwise the status reports
`len(violations)` and `violations_summary` is `violations[:20]`. -/
def run_pmd_analysis (input : PmdInput) : PmdResult :=
  match input with
  | PmdInput.malformed => PmdResult.parseFailure
  | PmdInput.parsed files =>
    match collectViolations files with
    | Except.error _ => PmdResult.unexpected
    | Except.ok violations =>
      if violations.isEmpty then PmdResult.noViolations
      else PmdResult.found violations.length (violations.take 20)

/-- All violation records of a report whose elements all carry text, in
document order. -/
def docViolations (files : List PmdFile) : List Violation :=
  files.flatMap (fun f =>
    f.violations.map (fun v => violationRecord f.name v (v.text.getD "")))

theorem foldlM_violations_ok (vs : List PmdViolation) (fname : Option String)
    (h : ∀ v ∈ vs, v.text ≠ none) (acc : List Violation) :
    vs.foldlM
      (fun acc2 v =>
        match v.text with
        | none => Except.error ()
        | some t => Except.ok (acc2 ++ [violationRecord fname v t]))
      acc =
    Except.ok (acc ++ vs.map (fun v => violationRecord fname v (v.text.getD ""))) := by
  induction vs generalizing acc with
  | nil => simp; rfl
  | cons v rest ih =>
    rw [List.foldlM_cons]
    cases ht : v.text with
    | none => exact absurd ht (h v (List.mem_cons_self v rest))
    | some t =>
      rw [ok_bind]
      rw [ih (fun w hw => h w (List.mem_cons_of_mem v hw)) (acc ++ [violationRecord fname v t])]
      simp [ht]

theorem collectViolations_ok (files : List PmdFile)
    (h : ∀ f ∈ files, ∀ v ∈ f.violations, v.text ≠ none) :
    collectViolations files = Except.ok (docViolations files) := by
  unfold collectViolations docViolations
  have main : ∀ (fs : List PmdFile), (∀ f ∈ fs, ∀ v ∈ f.violations, v.text ≠ none) →
      ∀ acc : List Violation,
      fs.foldlM
        (fun acc f =>
          f.violations.foldlM
            (fun acc2 v =>
              match v.text with
              | none => Except.error ()
              | some t => Except.ok (acc2 ++ [violationRecord f.name v t]))
            acc)
        acc =
      Except.ok (acc ++ fs.flatMap (fun f =>
        f.violations.map (fun v => violationRecord f.name v (v.text.getD "")))) := by
    intro fs hfs
    induction fs with
    | nil => intro acc; simp; rfl
    | cons f rest ih =>
      intro acc
      rw [List.foldlM_cons,
        foldlM_violations_ok f.violations f.name (hfs f (List.mem_cons_self f rest)) acc,
        ok_bind, ih (fun g hg => hfs g (List.mem_cons_of_mem f hg))]
      simp
  have := main files h []
  rw [this]
  simp

/-- C6 (confirmed): for every PMD report whose violation elements all carry
text, `run_pmd_analysis` reports the true total violation count (the number
of violation elements of the whole document) while `violations_summary` is
only the first 20 violations in document order; for zero violations it
returns the explicit no-violations status. -/
theorem c6_pmd_truncation (files : List PmdFile)
    (h : ∀ f ∈ files, ∀ v ∈ f.violations, v.text ≠ none) :
    (docViolations files).length = (files.map (fun f => f.violations.length)).sum ∧
    (docViolations files = [] →
      run_pmd_analysis (PmdInput.parsed files) = PmdResult.noViolations) ∧
    (docViolations files ≠ [] →
      run_pmd_analysis (PmdInput.parsed files) =
        PmdResult.found (docViolations files).length ((docViolations files).take 20)) := by
  have hc := collectViolations_ok files h
  refine ⟨?_, ?_, ?_⟩
  · simp [docViolations, List.length_flatMap, Function.comp_def]
  · intro he
    simp only [run_pmd_analysis, hc, he]
    rfl
  · intro hne
    simp only [run_pmd_analysis, hc]
    cases hE : (docViolations files).isEmpty with
    | true => exact absurd (List.isEmpty_iff.mp hE) hne
    | false => simp

theorem c6_pmd_truncation_witness :
    (∀ f ∈ [PmdFile.mk (some "A.java") [⟨some "4", some "r1", some "3", some " bad "⟩]],
       ∀ v ∈ f.violations, v.text ≠ none) ∧
    run_pmd_analysis (PmdInput.parsed
        [PmdFile.mk (some "A.java") [⟨some "4", some "r1", some "3", some " bad "⟩]]) =
      PmdResult.found
        (docViolations
          [PmdFile.mk (some "A.java") [⟨some "4", some "r1", some "3", some " bad "⟩]]).length
        ((docViolations
          [PmdFile.mk (some "A.java") [⟨some "4", some "r1", some "3", some " bad "⟩]]).take 20) := by
  have hht : ∀ f ∈ [PmdFile.mk (some "A.java") [⟨some "4", some "r1", some "3", some " bad "⟩]],
      ∀ v ∈ f.violations, v.text ≠ none := by decide
  exact ⟨hht, (c6_pmd_truncation
    [PmdFile.mk (some "A.java") [⟨some "4", some "r1", some "3", some " bad "⟩]] hht).2.2
    (by decide)⟩

/-- C10 (confirmed): a PMD report containing a violation element with no
text content makes `run_pmd_analysis` return the generic unexpected-error
dict (`violation.text` is `None`, so `.strip()` raises `AttributeError`,
caught only by `except Exception`), reporting none of the document's
violations — not even the one with text that precedes the empty one, and
no total count. -/
theorem c10_textless_violation :
    run_pmd_analysis (PmdInput.parsed
      [PmdFile.mk (some "A.java")
        [⟨some "4", some "r1", some "3", some "described"⟩,
         ⟨some "9", some "r2", some "1", none⟩]]) = PmdResult.unexpected := rfl

/-- One `<line>` element under `sourcefile` read by `get_missing_coverage`
(server.py lines 425-439): missed instructions `mi` and line number `nr`. -/
structure JLine where
  mi : Option String
  nr : Option String
deriving DecidableEq

/-- One `<class>` element of the JaCoCo report. -/
structure JClass where
  name : Option String
  lines : List JLine
deriving DecidableEq

/-- One `<package>` element of the JaCoCo report. -/
structure JPackage where
  name : Option String
  classes : List JClass
deriving DecidableEq

/-- Lines 427-439 for one line element: `some n` iff the line number n is
appended to `uncovered_lines` — both attributes present, `int(mi)` parses
and is > 0, and `int(nr)` parses; a `ValueError` from either conversion is
swallowed by the inner `try` and the line skipped. -/
def lineUncovered (l : JLine) : Option Int :=
  match l.mi, l.nr with
  | some mi, some nr =>
    match pyInt mi with
    | some m =>
      if 0 < m then
        match pyInt nr with
        | some n => some n
        | none => none
      else none
    | none => none
  | _, _ => none

/-- The `uncovered_lines` list collected for one class, in document order. -/
def uncoveredLines (ls : List JLine) : List Int := ls.filterMap lineUncovered

/-- The claim's qualifying condition on a line: its missed-instruction
attribute is present, numeric, and > 0. -/
def miQualifies (l : JLine) : Bool :=
  match l.mi with
  | some mi =>
    match pyInt mi with
    | some m => decide (0 < m)
    | none => false
  | none => false

/-- `package_name.replace('/', '.')` — the names are single-char paths, so
`replace` is a character map. -/
def dotify (cs : List Char) : List Char := cs.map (fun c => if c = '/' then '.' else c)

/-- `class_name.split('/')[-1]`: the suffix after the last slash. -/
def lastSegment (cs : List Char) : List Char :=
  (cs.reverse.takeWhile (fun c => c ≠ '/')).reverse

/-- The f-string on line 443 building the fully-qualified class name; a
missing name attribute is `None`, whose `.replace`/`.split` raises
`AttributeError` (caught by the outermost handler). -/
def fullClassName (pname cname : Option String) : Except Unit String :=
  match pname, cname with
  | some p, some c => Except.ok ⟨dotify p.data ++ '.' :: lastSegment c.data⟩
  | _, _ => Except.error ()

/-- `sorted(list(set(uncovered_lines)))` (line 445). -/
def sortedDedup (xs : List Int) : List Int := List.insertionSort (· ≤ ·) xs.dedup

/-- `missing_coverage[key] = value` on the insertion-ordered Python dict:
overwrite in place when the key exists, else append. -/
def dictInsert (m : List (String × List Int)) (k : String) (v : List Int) :
    List (String × List Int) :=
  if m.any (fun p => p.1 == k) then m.map (fun p => if p.1 = k then (k, v) else p)
  else m ++ [(k, v)]

/-- Lines 419-445 for one class element: collect the uncovered lines; when
the list is non-empty (`if uncovered_lines:`), resolve the fully-qualified
name and store the deduplicated ascending line list; a class with no
qualifying line leaves the dict untouched. -/
def classStep (pname : Option String) (m : List (String × List Int)) (c : JClass) :
    Except Unit (List (String × List Int)) :=
  let raw := uncoveredLines c.lines
  if raw.isEmpty then Except.ok m
  else do
    let k ← fullClassName pname c.name
    Except.ok (dictInsert m k (sortedDedup raw))

/-- The package → class double loop of `get_missing_coverage` (lines
417-445), building the `missing_coverage` dict. -/
def packagesFold (pkgs : List JPackage) : Except Unit (List (String × List Int)) :=
  pkgs.foldlM (fun m p => p.classes.foldlM (classStep p.name) m) []

/-- The dict shapes `get_missing_coverage` can return from a parsed
report. -/
inductive MissingCoverageResult where
  | failed
  | fullCoverage
  | mapping (m : List (String × List Int))
deriving DecidableEq

/-- `get_missing_coverage` from the parsed report onwards (lines 410-455):
any escaped exception becomes the generic error dict; an empty dict becomes
the explicit "100% Coverage!" status. -/
def get_missing_coverage (pkgs : List JPackage) : MissingCoverageResult :=
  match packagesFold pkgs with
  | Except.error _ => MissingCoverageResult.failed
  | Except.ok m =>
    if m.isEmpty then MissingCoverageResult.fullCoverage
    else MissingCoverageResult.mapping m

/-- A stored mapping entry is a non-empty strictly-ascending line list. -/
def entryGood (e : String × List Int) : Prop :=
  e.2 ≠ [] ∧ e.2.Sorted (· < ·)

theorem lineUncovered_miQualifies {l : JLine} {n : Int}
    (h : lineUncovered l = some n) : miQualifies l = true := by
  obtain ⟨miAttr, nrAttr⟩ := l
  cases miAttr with
  | none => cases h
  | some mi =>
    cases nrAttr with
    | none => cases h
    | some nr =>
      unfold lineUncovered at h
      unfold miQualifies
      dsimp only at h ⊢
      cases hm : pyInt mi with
      | none => rw [hm] at h; cases h
      | some m =>
        rw [hm] at h
        dsimp only at h ⊢
        by_cases hpos : 0 < m
        · simp [hpos]
        · rw [if_neg hpos] at h; cases h

theorem sortedDedup_ne_nil {xs : List Int} (h : ¬ xs = []) : sortedDedup xs ≠ [] := by
  unfold sortedDedup
  intro hcontra
  have hperm := List.perm_insertionSort (fun a b : Int => a ≤ b) xs.dedup
  rw [hcontra] at hperm
  exact h ((List.dedup_eq_nil xs).mp hperm.symm.eq_nil)

theorem sortedDedup_sorted (xs : List Int) : (sortedDedup xs).Sorted (· < ·) := by
  unfold sortedDedup
  have hsorted := List.sorted_insertionSort (fun a b : Int => a ≤ b) xs.dedup
  have hperm := List.perm_insertionSort (fun a b : Int => a ≤ b) xs.dedup
  have hnodup : (List.insertionSort (fun a b : Int => a ≤ b) xs.dedup).Nodup :=
    hperm.nodup_iff.mpr xs.nodup_dedup
  exact List.Sorted.lt_of_le hsorted hnodup

theorem dictInsert_good {m : List (String × List Int)} {k : String} {v : List Int}
    (hm : ∀ e ∈ m, entryGood e) (hv : entryGood (k, v)) :
    ∀ e ∈ dictInsert m k v, entryGood e := by
  intro e he
  unfold dictInsert at he
  by_cases hk : m.any (fun p => p.1 == k)
  · rw [if_pos hk] at he
    obtain ⟨p, hp, hpe⟩ := List.mem_map.mp he
    by_cases hpk : p.1 = k
    · rw [if_pos hpk] at hpe; rw [← hpe]; exact hv
    · rw [if_neg hpk] at hpe; rw [← hpe]; exact hm p hp
  · rw [if_neg hk] at he
    rcases List.mem_append.mp he with hin | hnew
    · exact hm e hin
    · rw [List.mem_singleton.mp hnew]; exact hv

theorem classStep_good {pname : Option String} {m : List (String × List Int)}
    {c : JClass} {m' : List (String × List Int)}
    (hm : ∀ e ∈ m, entryGood e) (h : classStep pname m c = Except.ok m') :
    ∀ e ∈ m', entryGood e := by
  unfold classStep at h
  by_cases hraw : (uncoveredLines c.lines).isEmpty
  · rw [if_pos hraw] at h
    injection h with h
    subst h
    exact hm
  · rw [if_neg hraw] at h
    cases hname : fullClassName pname c.name with
    | error e => rw [hname, error_bind] at h; cases h
    | ok k =>
      rw [hname, ok_bind] at h
      injection h with h
      subst h
      have hne : uncoveredLines c.lines ≠ [] := by
        intro hnil; rw [hnil] at hraw; exact hraw rfl
      exact dictInsert_good hm ⟨sortedDedup_ne_nil hne, sortedDedup_sorted _⟩

theorem foldlM_classes_good {classes : List JClass} {pname : Option String}
    {m m' : List (String × List Int)} (hm : ∀ e ∈ m, entryGood e)
    (h : classes.foldlM (classStep pname) m = Except.ok m') :
    ∀ e ∈ m', entryGood e := by
  induction classes generalizing m with
  | nil =>
    simp only [List.foldlM_nil] at h
    injection h with h
    subst h
    exact hm
  | cons c cs ih =>
    rw [List.foldlM_cons] at h
    cases hstep : classStep pname m c with
    | error e => rw [hstep, error_bind] at h; cases h
    | ok m1 =>
      rw [hstep, ok_bind] at h
      exact ih (classStep_good hm hstep) h

theorem packagesFold_good {pkgs : List JPackage} {m : List (String × List Int)}
    (h : packagesFold pkgs = Except.ok m) : ∀ e ∈ m, entryGood e := by
  unfold packagesFold at h
  have main : ∀ (ps : List JPackage) (acc : List (String × List Int)),
      (∀ e ∈ acc, entryGood e) →
      ∀ m', ps.foldlM (fun m p => p.classes.foldlM (classStep p.name) m) acc =
        Except.ok m' → ∀ e ∈ m', entryGood e := by
    intro ps
    induction ps with
    | nil =>
      intro acc hacc m' h'
      simp only [List.foldlM_nil] at h'
      injection h' with h'
      subst h'
      exact hacc
    | cons p rest ih =>
      intro acc hacc m' h'
      rw [List.foldlM_cons] at h'
      cases hstep : p.classes.foldlM (classStep p.name) acc with
      | error e => rw [hstep, error_bind] at h'; cases h'
      | ok m1 =>
        rw [hstep, ok_bind] at h'
        exact ih m1 (foldlM_classes_good hacc hstep) m' h'
  exact main pkgs [] (by intro e he; cases he) m h

/-- C5 (confirmed): every class stored in the mapping returned by
`get_missing_coverage` has a non-empty, strictly ascending (sorted,
duplicate-free) line list; a class none of whose lines has a present,
numeric, positive missed-instruction count contributes nothing to the
dict; a class that does change the dict has such a line; and an empty dict
becomes the explicit "100% Coverage!" status. -/
theorem c5_missing_coverage :
    (∀ pkgs m, get_missing_coverage pkgs = MissingCoverageResult.mapping m →
      ∀ e ∈ m, e.2 ≠ [] ∧ e.2.Sorted (· < ·)) ∧
    (∀ pname c m, (∀ l ∈ c.lines, miQualifies l = false) →
      classStep pname m c = Except.ok m) ∧
    (∀ pname c m m', classStep pname m c = Except.ok m' → m' ≠ m →
      ∃ l ∈ c.lines, miQualifies l = true) ∧
    (∀ pkgs, packagesFold pkgs = Except.ok [] →
      get_missing_coverage pkgs = MissingCoverageResult.fullCoverage) := by
  refine ⟨?_, ?_, ?_, ?_⟩
  · intro pkgs m hm
    unfold get_missing_coverage at hm
    cases hp : packagesFold pkgs with
    | error e => rw [hp] at hm; cases hm
    | ok m0 =>
      rw [hp] at hm
      dsimp only at hm
      by_cases hE : m0.isEmpty
      · rw [if_pos hE] at hm; cases hm
      · rw [if_neg hE] at hm
        injection hm with hm
        subst hm
        exact packagesFold_good hp
  · intro pname c m h
    unfold classStep
    have hraw : uncoveredLines c.lines = [] := by
      unfold uncoveredLines
      rw [List.filterMap_eq_nil_iff]
      intro l hl
      cases hu : lineUncovered l with
      | none => rfl
      | some n =>
        have := lineUncovered_miQualifies hu
        rw [h l hl] at this
        cases this
    rw [hraw]
    rfl
  · intro pname c m m' hstep hne
    unfold classStep at hstep
    by_cases hraw : (uncoveredLines c.lines).isEmpty
    · rw [if_pos hraw] at hstep
      injection hstep with hstep
      exact absurd hstep.symm hne
    · cases hr : uncoveredLines c.lines with
      | nil => rw [hr] at hraw; exact absurd rfl hraw
      | cons a as =>
        have ha : a ∈ uncoveredLines c.lines := by rw [hr]; exact List.mem_cons_self a as
        obtain ⟨l, hl, hla⟩ := List.mem_filterMap.mp ha
        exact ⟨l, hl, lineUncovered_miQualifies hla⟩
  · intro pkgs h
    unfold get_missing_coverage
    rw [h]
    rfl

theorem c5_missing_coverage_witness :
    get_missing_coverage
        [⟨some "com/ex",
          [⟨some "Foo", [⟨some "2", some "10"⟩, ⟨some "1", some "10"⟩, ⟨some "0", some "3"⟩]⟩]⟩] =
      MissingCoverageResult.mapping [("com.ex.Foo", [10])] ∧
    (∀ e ∈ [(("com.ex.Foo" : String), ([10] : List Int))], e.2 ≠ [] ∧ e.2.Sorted (· < ·)) ∧
    packagesFold [] = Except.ok [] ∧
    get_missing_coverage [] = MissingCoverageResult.fullCoverage := by
  refine ⟨by decide, ?_, rfl, ?_⟩
  · exact c5_missing_coverage.1
      [⟨some "com/ex",
        [⟨some "Foo", [⟨some "2", some "10"⟩, ⟨some "1", some "10"⟩, ⟨some "0", some "3"⟩]⟩]⟩]
      [("com.ex.Foo", [10])] (by decide)
  · exact c5_missing_coverage.2.2.2 [] rfl

/-- A value the BVA generator can emit: Python `None`, an int, a string,
or a boolean (`generate_bva_test_cases`, server.py lines 66-106). -/
inductive BvaValue where
  | vnone
  | vint (n : Int)
  | vstr (s : String)
  | vbool (b : Bool)
deriving DecidableEq

/-- Python `s.lower()` as a character list (ASCII core). -/
def lowerStr (s : String) : List Char := s.data.map Char.toLower

/-- Python `pat in hay` on strings: `pat` occurs as a contiguous
subsequence of `hay`. -/
def containsSub (hay pat : List Char) : Bool :=
  match hay with
  | [] => List.isPrefixOf pat []
  | _ :: rest => List.isPrefixOf pat hay || containsSub rest pat

/-- `\w` of the regex, ASCII core: letters, digits, underscore. -/
def isWordChar (c : Char) : Bool := c.isAlphanum || c = '_'

/-- State machine equivalent to `re.findall(r'\b\d+\b', s)` followed by
`int(...)` (server.py line 101): emit each maximal digit run both of whose
neighbours (when they exist) are non-word characters.  `runOk` says the
character before the current run was a valid left boundary; `run` is the
digit run read so far. -/
def scanTokens : List Char → Bool → List Char → List Nat
  | [], runOk, run => if runOk && !run.isEmpty then [digitsToNat run] else []
  | c :: cs, runOk, run =>
    if c.isDigit then scanTokens cs runOk (run ++ [c])
    else
      let rest := scanTokens cs (!isWordChar c) []
      if runOk && !run.isEmpty && !isWordChar c then digitsToNat run :: rest else rest

/-- All `\b\d+\b` tokens of a character list, as numbers. -/
def findIntTokens (cs : List Char) : List Nat := scanTokens cs true []

/-- `list(dict.fromkeys(values))` (line 106): left-to-right insertion into
an insertion-ordered dict, keeping each value's first occurrence. -/
def dedupKeepFirst (xs : List BvaValue) : List BvaValue :=
  xs.foldl (fun acc x => if x ∈ acc then acc else acc ++ [x]) []

/-- The specification reading of "duplicates removed while preserving
first-occurrence order": keep the head, erase its later duplicates,
recurse. -/
def firstOccurrences : List BvaValue → List BvaValue
  | [] => []
  | x :: xs => x :: firstOccurrences (xs.filter (fun y => y != x))
termination_by cs => cs.length
decreasing_by
  simp only [List.length_cons]
  exact Nat.lt_succ_of_le (List.length_filter_le _ _)

def JAVA_INT_MAX : Int := 2147483647

def JAVA_INT_MIN : Int := -2147483648

/-- The base working set of the `if/elif` type chain (lines 90-97) before
constraint parsing; an unrecognised type leaves `values` empty. -/
def typeBase (param_type : String) : List BvaValue :=
  if param_type = "int" ∨ param_type = "long" then
    [BvaValue.vint 0, BvaValue.vint 1, BvaValue.vint (-1),
     BvaValue.vint JAVA_INT_MAX, BvaValue.vint JAVA_INT_MIN]
  else if param_type = "String" then
    [BvaValue.vnone, BvaValue.vstr "", BvaValue.vstr " ",
     BvaValue.vstr ⟨List.replicate 1000 'a'⟩]
  else []

/-- `values.extend([num - 1, num, num + 1])` for every number found in the
lower-cased constraints (lines 100-104). -/
def constraintTriples (constraints : String) : List BvaValue :=
  (findIntTokens (lowerStr constraints)).flatMap
    (fun n => [BvaValue.vint ((n : Int) - 1), BvaValue.vint (n : Int),
               BvaValue.vint ((n : Int) + 1)])

/-- `generate_bva_test_cases` (lines 66-106).  The string literals of the
parsing branch are `str(JAVA_INT_MAX)`, `str(JAVA_INT_MIN)`,
`str(JAVA_INT_MAX + 1)` and `str(JAVA_INT_MIN - 1)` written out.  The
`boolean` branch is the last `elif` of the type chain and returns before
constraint parsing; `"boolean"` matches neither earlier type test, so
checking it before building `values` is equivalent. -/
def generate_bva_test_cases (param_name param_type function_name constraints : String) :
    List BvaValue :=
  if containsSub (lowerStr param_name) "default".data then
    [BvaValue.vint 0, BvaValue.vint 1, BvaValue.vint (-1)]
  else if param_type = "String" ∧
      (containsSub (lowerStr function_name) "toint".data = true ∨
       containsSub (lowerStr function_name) "parse".data = true) then
    [BvaValue.vnone, BvaValue.vstr "", BvaValue.vstr " ",
     BvaValue.vstr "0", BvaValue.vstr "1", BvaValue.vstr "-1",
     BvaValue.vstr "2147483647", BvaValue.vstr "-2147483648",
     BvaValue.vstr "2147483648", BvaValue.vstr "-2147483649",
     BvaValue.vstr "abc"]
  else if param_type = "boolean" then [BvaValue.vbool true, BvaValue.vbool false]
  else dedupKeepFirst (typeBase param_type ++ constraintTriples constraints)

theorem notMem_append_singleton (acc : List BvaValue) (x y : BvaValue) :
    decide (y ∉ acc ++ [x]) = ((y != x) && decide (y ∉ acc)) := by
  by_cases h1 : y = x
  · subst h1; simp
  · by_cases h2 : y ∈ acc <;> simp [h1, h2]

theorem dedup_go (xs : List BvaValue) :
    ∀ acc : List BvaValue,
      xs.foldl (fun a x => if x ∈ a then a else a ++ [x]) acc =
        acc ++ firstOccurrences (xs.filter (fun y => decide (y ∉ acc))) := by
  induction xs with
  | nil => intro acc; simp [firstOccurrences]
  | cons x xs ih =>
    intro acc
    rw [List.foldl_cons]
    by_cases hx : x ∈ acc
    · rw [if_pos hx, ih acc, List.filter_cons]
      simp [hx]
    · rw [if_neg hx, ih (acc ++ [x]), List.filter_cons]
      have hxk : decide (x ∉ acc) = true := by simp [hx]
      rw [hxk]
      simp only [if_true]
      rw [firstOccurrences, List.filter_filter]
      have hpred : (fun y => decide (y ∉ acc ++ [x])) =
          (fun y => (y != x) && decide (y ∉ acc)) :=
        funext (fun y => notMem_append_singleton acc x y)
      rw [hpred, List.append_assoc, List.singleton_append]

theorem dedupKeepFirst_eq (xs : List BvaValue) :
    dedupKeepFirst xs = firstOccurrences xs := by
  unfold dedupKeepFirst
  rw [dedup_go xs []]
  simp

theorem mem_firstOccurrences (v : BvaValue) (xs : List BvaValue) :
    v ∈ firstOccurrences xs ↔ v ∈ xs := by
  induction xs using firstOccurrences.induct with
  | case1 => simp [firstOccurrences]
  | case2 x xs ih =>
    rw [firstOccurrences]
    by_cases hvx : v = x
    · subst hvx; simp
    · simp only [List.mem_cons]
      constructor
      · rintro (rfl | hv)
        · exact Or.inl rfl
        · exact Or.inr (List.mem_filter.mp (ih.mp hv)).1
      · rintro (rfl | hv)
        · exact Or.inl rfl
        · exact Or.inr (ih.mpr (List.mem_filter.mpr ⟨hv, by simp [hvx]⟩))

theorem nodup_firstOccurrences (xs : List BvaValue) : (firstOccurrences xs).Nodup := by
  induction xs using firstOccurrences.induct with
  | case1 => simp [firstOccurrences]
  | case2 x xs ih =>
    rw [firstOccurrences]
    refine List.nodup_cons.mpr ⟨?_, ih⟩
    intro hx
    have hmem := (List.mem_filter.mp ((mem_firstOccurrences x _).mp hx)).2
    simp at hmem

/-- C9 (confirmed): a parameter name containing "default"
(case-insensitively) short-circuits `generate_bva_test_cases` to
`[0, 1, -1]`, whatever the type, function name and constraints. -/
theorem c9_default_values (param_name param_type function_name constraints : String)
    (h : containsSub (lowerStr param_name) "default".data = true) :
    generate_bva_test_cases param_name param_type function_name constraints =
      [BvaValue.vint 0, BvaValue.vint 1, BvaValue.vint (-1)] := by
  unfold generate_bva_test_cases
  rw [if_pos h]

theorem c9_default_values_witness :
    containsSub (lowerStr "someDefaultValue") "default".data = true ∧
    generate_bva_test_cases "someDefaultValue" "int" "foo" "" =
      [BvaValue.vint 0, BvaValue.vint 1, BvaValue.vint (-1)] := by
  have h : containsSub (lowerStr "someDefaultValue") "default".data = true := by decide
  exact ⟨h, c9_default_values "someDefaultValue" "int" "foo" "" h⟩

/-- C7 (confirmed): for a `String` parameter whose enclosing function name
contains "toint" or "parse" case-insensitively (and a parameter name
without "default"), the generator returns exactly the fixed
integer-parsing boundary sequence, including one past `INT32_MAX` as text
and the non-numeric string "abc". -/
theorem c7_string_parsing (param_name function_name constraints : String)
    (h1 : containsSub (lowerStr param_name) "default".data = false)
    (h2 : containsSub (lowerStr function_name) "toint".data = true ∨
          containsSub (lowerStr function_name) "parse".data = true) :
    generate_bva_test_cases param_name "String" function_name constraints =
      [BvaValue.vnone, BvaValue.vstr "", BvaValue.vstr " ",
       BvaValue.vstr "0", BvaValue.vstr "1", BvaValue.vstr "-1",
       BvaValue.vstr "2147483647", BvaValue.vstr "-2147483648",
       BvaValue.vstr "2147483648", BvaValue.vstr "-2147483649",
       BvaValue.vstr "abc"] := by
  unfold generate_bva_test_cases
  rw [if_neg (by simp [h1]), if_pos ⟨rfl, h2⟩]

theorem c7_string_parsing_witness :
    containsSub (lowerStr "input") "default".data = false ∧
    (containsSub (lowerStr "parseToInt") "toint".data = true ∨
     containsSub (lowerStr "parseToInt") "parse".data = true) ∧
    generate_bva_test_cases "input" "String" "parseToInt" "" =
      [BvaValue.vnone, BvaValue.vstr "", BvaValue.vstr " ",
       BvaValue.vstr "0", BvaValue.vstr "1", BvaValue.vstr "-1",
       BvaValue.vstr "2147483647", BvaValue.vstr "-2147483648",
       BvaValue.vstr "2147483648", BvaValue.vstr "-2147483649",
       BvaValue.vstr "abc"] ∧
    BvaValue.vstr "2147483648" ∈ generate_bva_test_cases "input" "String" "parseToInt" "" ∧
    BvaValue.vstr "abc" ∈ generate_bva_test_cases "input" "String" "parseToInt" "" := by
  have h1 : containsSub (lowerStr "input") "default".data = false := by decide
  have h2 : containsSub (lowerStr "parseToInt") "toint".data = true ∨
      containsSub (lowerStr "parseToInt") "parse".data = true := Or.inl (by decide)
  have h := c7_string_parsing "input" "parseToInt" "" h1 h2
  refine ⟨h1, h2, h, ?_, ?_⟩ <;> rw [h] <;> decide

/-- C8 (confirmed): `('count', 'int', 'setCount', 'max 10 items')` yields
the base integer boundary set followed by 9, 10, 11, with no duplicates;
in general, on the working-set branch every `\b\d+\b` token n of the
lower-cased constraints contributes n-1, n, n+1, and the returned sequence
is the working set with duplicates removed preserving first-occurrence
order (hence duplicate-free). -/
theorem c8_constraint_mining :
    (generate_bva_test_cases "count" "int" "setCount" "max 10 items" =
      [BvaValue.vint 0, BvaValue.vint 1, BvaValue.vint (-1),
       BvaValue.vint 2147483647, BvaValue.vint (-2147483648),
       BvaValue.vint 9, BvaValue.vint 10, BvaValue.vint 11]) ∧
    (∀ param_name param_type function_name constraints : String,
      containsSub (lowerStr param_name) "default".data = false →
      ¬(param_type = "String" ∧
        (containsSub (lowerStr function_name) "toint".data = true ∨
         containsSub (lowerStr function_name) "parse".data = true)) →
      param_type ≠ "boolean" →
      generate_bva_test_cases param_name param_type function_name constraints =
        firstOccurrences (typeBase param_type ++ constraintTriples constraints) ∧
      (generate_bva_test_cases param_name param_type function_name constraints).Nodup ∧
      ∀ n ∈ findIntTokens (lowerStr constraints),
        BvaValue.vint ((n : Int) - 1) ∈
          generate_bva_test_cases param_name param_type function_name constraints ∧
        BvaValue.vint (n : Int) ∈
          generate_bva_test_cases param_name param_type function_name constraints ∧
        BvaValue.vint ((n : Int) + 1) ∈
          generate_bva_test_cases param_name param_type function_name constraints) := by
  constructor
  · decide
  · intro pn pt fn cs h1 h2 h3
    have hgen : generate_bva_test_cases pn pt fn cs =
        dedupKeepFirst (typeBase pt ++ constraintTriples cs) := by
      unfold generate_bva_test_cases
      rw [if_neg (by simp [h1]), if_neg h2, if_neg h3]
    rw [hgen, dedupKeepFirst_eq]
    refine ⟨rfl, nodup_firstOccurrences _, ?_⟩
    intro n hn
    refine ⟨?_, ?_, ?_⟩ <;>
    · rw [mem_firstOccurrences]
      refine List.mem_append.mpr (Or.inr ?_)
      unfold constraintTriples
      exact List.mem_flatMap.mpr ⟨n, hn, by simp⟩

theorem c8_constraint_mining_witness :
    containsSub (lowerStr "count") "default".data = false ∧
    ¬(("int" : String) = "String" ∧
      (containsSub (lowerStr "setCount") "toint".data = true ∨
       containsSub (lowerStr "setCount") "parse".data = true)) ∧
    ("int" : String) ≠ "boolean" ∧
    (10 : Nat) ∈ findIntTokens (lowerStr "max 10 items") ∧
    (generate_bva_test_cases "count" "int" "setCount" "max 10 items").Nodup ∧
    BvaValue.vint 10 ∈ generate_bva_test_cases "count" "int" "setCount" "max 10 items" := by
  have h1 : containsSub (lowerStr "count") "default".data = false := by decide
  have h2 : ¬(("int" : String) = "String" ∧
      (containsSub (lowerStr "setCount") "toint".data = true ∨
       containsSub (lowerStr "setCount") "parse".data = true)) := by
    intro hcontra
    exact absurd hcontra.1 (by decide)
  have h3 : ("int" : String) ≠ "boolean" := by decide
  have hn : (10 : Nat) ∈ findIntTokens (lowerStr "max 10 items") := by decide
  have h := c8_constraint_mining.2 "count" "int" "setCount" "max 10 items" h1 h2 h3
  exact ⟨h1, h2, h3, hn, h.2.1, (h.2.2 10 hn).2.1⟩

end QualityServer
